import Mathlib

/-!
# A verification development of the `kinisi` statistical core

The repository fragment at hand ships no algorithmic source (only CI
configuration and a usage notebook), so every operation below is a shallow
embedding modelled from the specification (`spec.md`): rationals stand in for
the floating-point numbers of the original, a concrete linear-congruential
generator stands in for the seeded pseudorandom source, and the continuous
global optimizer is modelled as exact minimization over a finite candidate
set.  Transcendental functions (`log`, `exp`) that the likelihood formulas
mention are abstracted as explicit function parameters (`rlog`, `rexp`),
since they have no exact rational realization.
-/

namespace Kinisi

/-- Modelled from the spec (§7): the error taxonomy of the statistical core.
The spec's classes `InsufficientDataError`, `SingularCovarianceError`,
`OptimizationDivergenceError` and `SamplingError` become constructors. -/
inductive KinisiError where
  | insufficientData
  | singularCovariance
  | optimizationDivergence
  | sampling
deriving DecidableEq, Repr

/-- Modelled from the spec (§4.2, §9): the seeded pseudorandom source, as a
64-bit linear congruential generator with explicit wrap-around. -/
def lcg (s : ℕ) : ℕ := (6364136223846793005 * s + 1442695040888963407) % (2 ^ 64)

/-- Mean of a list of rationals (empty list gives `0` by rational division
by zero). -/
def listMean (l : List ℚ) : ℚ := l.sum / l.length

/-- Modelled from the spec (§3): a trajectory is an ordered sequence of
per-particle position vectors over discrete time steps.  Outer index: time
step; middle: particle; inner: Cartesian coordinate. -/
structure Trajectory where
  positions : List (List (List ℚ))
deriving DecidableEq, Repr

/-- Number of recorded time steps of a trajectory. -/
def nSteps (traj : Trajectory) : ℕ := traj.positions.length

/-- Number of (selected) particles of a trajectory, read off the first
frame. -/
def nParticles (traj : Trajectory) : ℕ := (traj.positions.getD 0 []).length

/-- Position of particle `p` at time step `t`. -/
def posAt (traj : Trajectory) (t p : ℕ) : List ℚ :=
  (traj.positions.getD t []).getD p []

/-- Squared Euclidean distance between two position vectors. -/
def sqDist (p q : List ℚ) : ℚ :=
  ((p.zip q).map (fun c => (c.1 - c.2) ^ 2)).sum

/-- Modelled from the spec (§4.1): for each interval, origins are every time
step index `t` such that `t + interval` is within trajectory bounds. -/
def origins (traj : Trajectory) (Δ : ℕ) : List ℕ :=
  (List.range (nSteps traj)).filter (fun t => t + Δ < nSteps traj)

/-- Modelled from the spec (§4.1): the squared-displacement observations of
one interval, one per (origin, particle) pair. -/
def dispObs (traj : Trajectory) (Δ : ℕ) : List ℚ :=
  (origins traj Δ).flatMap (fun t =>
    (List.range (nParticles traj)).map (fun p =>
      sqDist (posAt traj t p) (posAt traj (t + Δ) p)))

/-- Modelled from the spec (§4.1, §6): the flat option set of the
displacement sampler.  `timeStep` is the physical duration of one recorded
step; `minInterval`, `intervalSkip` are in units of recorded steps;
`minPairs` is the configured minimum number of origin/particle pairs an
interval must yield to be retained. -/
structure SamplerConfig where
  timeStep : ℚ
  minInterval : ℕ
  intervalSkip : ℕ
  minPairs : ℕ
deriving DecidableEq, Repr

/-- Modelled from the spec (§3): one time interval (in recorded steps)
together with its displacement-squared observations. -/
structure IntervalSample where
  interval : ℕ
  observations : List ℚ
deriving DecidableEq, Repr

/-- Modelled from the spec (§4.1): the candidate interval values — multiples
of the recorded step, starting no earlier than `minInterval`, spaced by
`intervalSkip` steps, within the trajectory length. -/
def candidateIntervals (cfg : SamplerConfig) (n : ℕ) : List ℕ :=
  (List.range n).filter (fun Δ =>
    cfg.minInterval ≤ Δ ∧ (Δ - cfg.minInterval) % (max cfg.intervalSkip 1) = 0)

/-- An interval is retained when it yields at least the configured minimum
number of origin/particle pairs. -/
def keepInterval (traj : Trajectory) (cfg : SamplerConfig) (Δ : ℕ) : Bool :=
  cfg.minPairs ≤ (dispObs traj Δ).length

/-- Modelled from the spec (§4.1): sample over an explicit candidate-interval
list.  Intervals yielding too few origin/particle pairs are dropped; the run
is fatal (`InsufficientDataError`) exactly when every interval is dropped. -/
def sampleFrom (traj : Trajectory) (cfg : SamplerConfig) (cands : List ℕ) :
    Except KinisiError (List IntervalSample) :=
  if (cands.filter (keepInterval traj cfg)).isEmpty then
    .error .insufficientData
  else
    .ok ((cands.filter (keepInterval traj cfg)).map
      (fun Δ => ⟨Δ, dispObs traj Δ⟩))

/-- Modelled from the spec (§4.1): `DisplacementSampler.sample`. -/
def sample (traj : Trajectory) (cfg : SamplerConfig) :
    Except KinisiError (List IntervalSample) :=
  sampleFrom traj cfg (candidateIntervals cfg (nSteps traj))

/-- Modelled from the spec (§5): per-resample sub-seeds derived
deterministically from the master seed. -/
def subSeed (seed r : ℕ) : ℕ := lcg (seed + r)

/-- Draw `cnt` pseudorandom indices below `bound` by iterating the generator
from state `s` (sampling observations with replacement). -/
def drawIndices : ℕ → ℕ → ℕ → List ℕ
  | _, 0, _ => []
  | s, m + 1, bound =>
    let s2 := lcg s
    s2 % bound :: drawIndices s2 m bound

/-- Modelled from the spec (§4.2): one bootstrap resample of an interval's
observations (with replacement) and its mean. -/
def resampleMean (s : IntervalSample) (sd : ℕ) : ℚ :=
  listMean ((drawIndices sd s.observations.length s.observations.length).map
    (fun i => s.observations.getD i 0))

/-- Modelled from the spec (§4.2): the lock-step resampled mean vectors —
row `r` holds, for each interval, the mean of that interval's `r`-th
bootstrap resample, every interval reusing the same per-resample sub-seed so
that shared-trajectory correlation is captured. -/
def resampleRows (samples : List IntervalSample) (n seed : ℕ) :
    List (List ℚ) :=
  (List.range n).map (fun r =>
    samples.map (fun s => resampleMean s (subSeed seed r)))

/-- Mean of column `j` of a list of rows. -/
def colMean (rows : List (List ℚ)) (j : ℕ) : ℚ :=
  (∑ r ∈ Finset.range rows.length, (rows.getD r []).getD j 0) / rows.length

/-- Empirical covariance of columns `j` and `k` across the rows. -/
def covEntry (rows : List (List ℚ)) (j k : ℕ) : ℚ :=
  (∑ r ∈ Finset.range rows.length,
    ((rows.getD r []).getD j 0 - colMean rows j) *
      ((rows.getD r []).getD k 0 - colMean rows k)) / rows.length

/-- The `d × d` empirical covariance matrix of the rows, as a list of
lists. -/
def covMatrixList (rows : List (List ℚ)) (d : ℕ) : List (List ℚ) :=
  (List.range d).map (fun j => (List.range d).map (fun k => covEntry rows j k))

/-- Modelled from the spec (§3): an ordered sequence of interval values (in
recorded steps), a vector of per-interval mean displacement, and the
covariance matrix over those means. -/
structure CovarianceBundle where
  intervals : List ℕ
  means : List ℚ
  cov : List (List ℚ)
deriving DecidableEq, Repr

/-- Modelled from the spec (§4.2): `CovarianceEstimator.estimate`.  The joint
covariance of the lock-step resampled means is the empirical covariance of
the mean vectors across the `n` resample draws. -/
def estimate (samples : List IntervalSample) (n seed : ℕ) : CovarianceBundle :=
  { intervals := samples.map (·.interval)
  , means := samples.map (fun s => listMean s.observations)
  , cov := covMatrixList (resampleRows samples n seed) samples.length }

/-- A sequence of interval samples is non-degenerate when it is nonempty and
every interval carries at least one observation. -/
def NonDegenerate (samples : List IntervalSample) : Prop :=
  samples ≠ [] ∧ ∀ s ∈ samples, s.observations ≠ []

instance (samples : List IntervalSample) : Decidable (NonDegenerate samples) := by
  unfold NonDegenerate; infer_instance

/-- Quadratic form of a list-of-lists matrix of dimension `d` against a
coefficient assignment `v`. -/
def quadForm (C : List (List ℚ)) (d : ℕ) (v : ℕ → ℚ) : ℚ :=
  ∑ j ∈ Finset.range d, ∑ k ∈ Finset.range d,
    v j * ((C.getD j []).getD k 0) * v k

/-- Dimension of a covariance bundle: the number of retained intervals. -/
def dim (b : CovarianceBundle) : ℕ := b.intervals.length

/-- The covariance matrix of a bundle as a square matrix over `ℚ`. -/
def toMatrix (b : CovarianceBundle) : Matrix (Fin (dim b)) (Fin (dim b)) ℚ :=
  Matrix.of fun i j => (b.cov.getD i []).getD j 0

/-- Explicit inverse of a square rational matrix through the adjugate
(coincides with the genuine inverse whenever the determinant is nonzero). -/
def invMat {d : ℕ} (A : Matrix (Fin d) (Fin d) ℚ) : Matrix (Fin d) (Fin d) ℚ :=
  (1 / A.det) • A.adjugate

/-- Modelled from the spec (§4.3): the residual vector `y - model(x, θ)` of a
bundle against a model at parameters `θ`. -/
def residVec (b : CovarianceBundle) (model : ℚ → List ℚ → ℚ) (θ : List ℚ) :
    Fin (dim b) → ℚ :=
  fun j => b.means.getD j 0 - model ((b.intervals.getD j 0 : ℕ) : ℚ) θ

/-- Modelled from the spec (§4.3): the generalized (Mahalanobis) residual
`rᵗ Σ⁻¹ r` of a residual vector `r` against an inverse covariance. -/
def mahalanobis {d : ℕ} (covInv : Matrix (Fin d) (Fin d) ℚ) (r : Fin d → ℚ) : ℚ :=
  ∑ j, ∑ k, r j * covInv j k * r k

/-- The Mahalanobis residual of a bundle against a model at parameters `θ`. -/
def mahalanobisResidual (b : CovarianceBundle) (model : ℚ → List ℚ → ℚ)
    (θ : List ℚ) : ℚ :=
  mahalanobis (invMat (toMatrix b)) (residVec b model θ)

/-- Modelled from the spec (§4.3): the negative log-likelihood
`0.5 * Mahalanobis_residual + 0.5 * log(det Σ)` with the constant term
omitted; `logDetCov` is the (pre-computed) value of `log(det Σ)`. -/
def negLogLikelihood {d : ℕ} (covInv : Matrix (Fin d) (Fin d) ℚ)
    (logDetCov : ℚ) (r : Fin d → ℚ) : ℚ :=
  (1 / 2) * mahalanobis covInv r + (1 / 2) * logDetCov

/-- Modelled from the spec (§4.3): the objective function of the fit — the
negative log-likelihood of the residual at `θ`, with `rlog` the rational
stand-in for the real logarithm. -/
def fitTarget (b : CovarianceBundle) (model : ℚ → List ℚ → ℚ)
    (rlog : ℚ → ℚ) : List ℚ → ℚ :=
  fun θ =>
    negLogLikelihood (invMat (toMatrix b)) (rlog (toMatrix b).det)
      (residVec b model θ)

/-- Element of `x :: xs` minimizing `f` (first minimum wins); the executable
model of the global optimizer's exact search. -/
def argminBy (f : List ℚ → ℚ) (x : List ℚ) (xs : List (List ℚ)) : List ℚ :=
  xs.foldl (fun best y => if f y < f best then y else best) x

/-- Pseudorandom componentwise perturbation of a parameter vector (the
proposal move of the walk, and the small initialization ball). -/
def perturb (sd : ℕ) (θ : List ℚ) : List ℚ :=
  ((drawIndices sd θ.length 2001).zip θ).map
    (fun c => c.2 + ((c.1 : ℚ) - 1000) / 1000)

/-- Modelled from the spec (§4.3): the Markov-chain walk on parameter space —
at each step a pseudorandom proposal is accepted when it does not increase
the target negative log-likelihood. -/
def mcmcChain (target : List ℚ → ℚ) : List ℚ → ℕ → ℕ → List (List ℚ)
  | _, _, 0 => []
  | θ, s, n + 1 =>
    let s2 := lcg s
    let prop := perturb s2 θ
    let θ2 := if target prop ≤ target θ then prop else θ
    θ2 :: mcmcChain target θ2 s2 n

/-- Modelled from the spec (§3): a scalar parameter as an empirical sample
set plus a cached point summary; `index` is the parameter's position in the
model's parameter vector. -/
structure ParameterDistribution where
  index : ℕ
  samples : List ℚ
  summary : ℚ
deriving DecidableEq, Repr

/-- One `ParameterDistribution` per parameter index, read off the (post
burn-in) chain. -/
def paramDists (chain : List (List ℚ)) (p : ℕ) : List ParameterDistribution :=
  (List.range p).map (fun idx =>
    { index := idx
    , samples := chain.map (fun θ => θ.getD idx 0)
    , summary := listMean (chain.map (fun θ => θ.getD idx 0)) })

/-- Modelled from the spec (§3): the result of a fit — the model's point
parameter vector and the sampled parameter distributions. -/
structure FitResult where
  params : List ℚ
  distributions : List ParameterDistribution
deriving DecidableEq, Repr

/-- Modelled from the spec (§6): the flat option set of the regressor.  The
global optimizer is modelled as exact minimization over `init ::
candidates`. -/
structure FitConfig where
  seed : ℕ
  nSteps : ℕ
  burnIn : ℕ
  init : List ℚ
  candidates : List (List ℚ)
deriving DecidableEq, Repr

/-- The point estimate a fit reports: the search-set element minimizing the
negative log-likelihood target. -/
def fitPoint (b : CovarianceBundle) (model : ℚ → List ℚ → ℚ) (rlog : ℚ → ℚ)
    (cfg : FitConfig) : List ℚ :=
  argminBy (fitTarget b model rlog) cfg.init cfg.candidates

/-- The post-burn-in chain of a fit, walked against the same negative
log-likelihood target as the point estimate. -/
def fitChain (b : CovarianceBundle) (model : ℚ → List ℚ → ℚ) (rlog : ℚ → ℚ)
    (cfg : FitConfig) : List (List ℚ) :=
  (mcmcChain (fitTarget b model rlog) (fitPoint b model rlog cfg) cfg.seed
    cfg.nSteps).drop cfg.burnIn

/-- Modelled from the spec (§4.3): `CorrelatedRegressor.fit`.  Raises
`SingularCovarianceError` when `Σ` is not invertible; otherwise minimizes
the negative log-likelihood for the point estimate and runs the chain walk
against the same target, discarding the burn-in. -/
def fit (b : CovarianceBundle) (model : ℚ → List ℚ → ℚ) (rlog : ℚ → ℚ)
    (cfg : FitConfig) : Except KinisiError FitResult :=
  if (toMatrix b).det = 0 then .error .singularCovariance
  else
    .ok { params := fitPoint b model rlog cfg
        , distributions := paramDists (fitChain b model rlog cfg)
            (fitPoint b model rlog cfg).length }

/-- Modelled from the spec (§9): the capability contract of a fit-able input
distribution — a sample array. -/
structure Distribution where
  samples : List ℚ
deriving DecidableEq, Repr

/-- Sample-set size of a distribution. -/
def Distribution.size (d : Distribution) : ℕ := d.samples.length

/-- Boltzmann constant in eV/K, as in the spec's Arrhenius scenario (§8). -/
def kB : ℚ := 8617 / 100000000

/-- Modelled from the spec (§4.4): the Arrhenius model function
`D(T, Ea, A) = A * exp(-Ea / (kB * T))`, with `rexp` the rational stand-in
for the real exponential. -/
def arrheniusFunc (rexp : ℚ → ℚ) (T Ea A : ℚ) : ℚ :=
  A * rexp (-Ea / (kB * T))

/-- Modelled from the spec (§4.4): `StandardArrhenius` holds the
temperatures and the input diffusion-coefficient distributions. -/
structure StandardArrhenius where
  x : List ℚ
  D : List Distribution
deriving DecidableEq, Repr

/-- Modelled from the spec (§6): the option set of the Arrhenius sampler. -/
structure ArrheniusConfig where
  seed : ℕ
  nSteps : ℕ
  burnIn : ℕ
  init : ℚ × ℚ
deriving DecidableEq, Repr

/-- Modelled from the spec (§4.4): draw one sample index per input
distribution to form a simulated y-vector for one chain step. -/
def drawY (s : StandardArrhenius) (sd : ℕ) : List ℚ :=
  ((drawIndices sd s.D.length (2 ^ 32)).zip s.D).map
    (fun c => c.2.samples.getD (c.1 % max c.2.size 1) 0)

/-- Squared-deviation likelihood score of an (Ea, A) pair against a drawn
y-vector. -/
def arrheniusScore (rexp : ℚ → ℚ) (x y : List ℚ) (θ : ℚ × ℚ) : ℚ :=
  ((x.zip y).map (fun c => (c.2 - arrheniusFunc rexp c.1 θ.1 θ.2) ^ 2)).sum

/-- Modelled from the spec (§4.4): the chain walk over (Ea, A) — each step
draws a fresh y-vector from the input distributions' empirical samples and a
pseudorandom proposal, accepted when it does not increase the score. -/
def arrheniusChain (s : StandardArrhenius) (rexp : ℚ → ℚ) :
    ℚ × ℚ → ℕ → ℕ → List (ℚ × ℚ)
  | _, _, 0 => []
  | θ, sd, n + 1 =>
    let s2 := lcg sd
    let y := drawY s s2
    let ds := drawIndices (lcg s2) 2 2001
    let prop := (θ.1 + ((ds.getD 0 0 : ℚ) - 1000) / 1000,
                 θ.2 + ((ds.getD 1 0 : ℚ) - 1000) / 1000)
    let θ2 := if arrheniusScore rexp s.x y prop ≤ arrheniusScore rexp s.x y θ
      then prop else θ
    θ2 :: arrheniusChain s rexp θ2 s2 n

/-- The joint (Ea, A) chain produced by `StandardArrhenius.mcmc`. -/
structure ArrheniusResult where
  chain : List (ℚ × ℚ)
deriving DecidableEq, Repr

/-- Modelled from the spec (§4.4) and the usage notebook:
`StandardArrhenius.mcmc()`, producing the joint posterior chain with the
burn-in discarded. -/
def arrheniusMcmc (s : StandardArrhenius) (rexp : ℚ → ℚ)
    (cfg : ArrheniusConfig) : ArrheniusResult :=
  ⟨(arrheniusChain s rexp cfg.init cfg.seed cfg.nSteps).drop cfg.burnIn⟩

/-- The activation-energy marginal of the joint chain. -/
def activationEnergy (r : ArrheniusResult) : Distribution :=
  ⟨r.chain.map Prod.fst⟩

/-- The preexponential-factor marginal of the joint chain. -/
def preexponentialFactor (r : ArrheniusResult) : Distribution :=
  ⟨r.chain.map Prod.snd⟩

/-- Modelled from the usage notebook: `get_sample(i)` pairs the `i`-th
activation-energy sample with the `i`-th prefactor sample. -/
def getSample (r : ArrheniusResult) (i : ℕ) : ℚ × ℚ :=
  ((activationEnergy r).samples.getD i 0,
   (preexponentialFactor r).samples.getD i 0)

/-- The sample arrays a fit result exposes (empty on failure). -/
def fitSamples (e : Except KinisiError FitResult) : List (List ℚ) :=
  match e with
  | .ok r => r.distributions.map (fun p => p.samples)
  | .error _ => []

/-! ### Concrete inputs for the witness instances -/

/-- A 3-step, 1-particle, 1-dimensional example trajectory. -/
def exTraj : Trajectory := ⟨[[[0]], [[1]], [[3]]]⟩

/-- An example sampler configuration with minimum one origin/particle pair. -/
def exCfgS : SamplerConfig := ⟨1, 1, 1, 1⟩

/-- An example non-degenerate interval-sample input. -/
def exSamples : List IntervalSample := [⟨1, [0, 6, 12]⟩, ⟨2, [1, 3]⟩]

/-- An example linear model `y = θ₀ * x`. -/
def exModel : ℚ → List ℚ → ℚ := fun x θ => θ.getD 0 0 * x

/-- An example rational stand-in for the logarithm. -/
def exRlog : ℚ → ℚ := fun q => q - 1

/-- An example rational stand-in for the exponential. -/
def exRexp : ℚ → ℚ := fun q => 1 + q

/-- An example invertible 1×1 covariance bundle. -/
def exB : CovarianceBundle := ⟨[1], [2], [[3]]⟩

/-- An example singular 1×1 covariance bundle. -/
def exBSing : CovarianceBundle := ⟨[1], [2], [[0]]⟩

/-- An example fit configuration. -/
def exFitCfg : FitConfig := ⟨0, 1, 0, [1], [[2]]⟩

/-- An example Arrhenius input over two temperatures. -/
def exArr : StandardArrhenius := ⟨[500, 600], [⟨[1, 2]⟩, ⟨[3]⟩]⟩

/-- An example Arrhenius sampling configuration. -/
def exArrCfg : ArrheniusConfig := ⟨0, 2, 0, (1, 1)⟩

/-! ## Helper lemmas -/

theorem argminBy_cons (f : List ℚ → ℚ) (x y : List ℚ) (ys : List (List ℚ)) :
    argminBy f x (y :: ys) = argminBy f (if f y < f x then y else x) ys := rfl

theorem argminBy_mem (f : List ℚ → ℚ) (x : List ℚ) (xs : List (List ℚ)) :
    argminBy f x xs = x ∨ argminBy f x xs ∈ xs := by
  induction xs generalizing x with
  | nil => exact Or.inl rfl
  | cons y ys ih =>
    rw [argminBy_cons]
    by_cases hc : f y < f x
    · rw [if_pos hc]
      rcases ih y with h | h
      · rw [h]
        exact Or.inr (List.mem_cons_self y ys)
      · exact Or.inr (List.mem_cons_of_mem y h)
    · rw [if_neg hc]
      rcases ih x with h | h
      · exact Or.inl h
      · exact Or.inr (List.mem_cons_of_mem y h)

theorem argminBy_le (f : List ℚ → ℚ) (x : List ℚ) (xs : List (List ℚ)) :
    ∀ y, (y = x ∨ y ∈ xs) → f (argminBy f x xs) ≤ f y := by
  induction xs generalizing x with
  | nil =>
    rintro y (rfl | h)
    · exact le_refl _
    · cases h
  | cons z zs ih =>
    rintro y (rfl | h)
    · rw [argminBy_cons]
      refine le_trans (ih (if f z < f y then z else y) _ (Or.inl rfl)) ?_
      by_cases hc : f z < f y
      · rw [if_pos hc]
        exact le_of_lt hc
      · rw [if_neg hc]
    · rw [argminBy_cons]
      rcases List.mem_cons.mp h with rfl | hmem
      · refine le_trans (ih (if f y < f x then y else x) _ (Or.inl rfl)) ?_
        by_cases hc : f y < f x
        · rw [if_pos hc]
        · rw [if_neg hc]
          exact le_of_not_lt hc
      · exact ih _ y (Or.inr hmem)

theorem getD_map_of_lt {α β : Type} (l : List α) (f : α → β) (i : ℕ) (d : α)
    (d2 : β) (h : i < l.length) : (l.map f).getD i d2 = f (l.getD i d) := by
  rw [List.getD_eq_getElem _ _ (by simpa using h), List.getD_eq_getElem _ _ h,
    List.getElem_map]

theorem filter_erase_of_not (p : ℕ → Bool) (l : List ℕ) (a : ℕ)
    (h : p a = false) : (l.erase a).filter p = l.filter p := by
  induction l with
  | nil => rfl
  | cons x xs ih =>
    by_cases hx : x = a
    · subst hx
      rw [List.erase_cons_head]
      simp [List.filter_cons, h]
    · rw [List.erase_cons_tail (by simpa using hx)]
      simp only [List.filter_cons, ih]

theorem keepInterval_iff (traj : Trajectory) (cfg : SamplerConfig) (Δ : ℕ) :
    keepInterval traj cfg Δ = true ↔ cfg.minPairs ≤ (dispObs traj Δ).length := by
  simp [keepInterval]

theorem sampleFrom_error_iff (traj : Trajectory) (cfg : SamplerConfig)
    (cands : List ℕ) :
    sampleFrom traj cfg cands = .error .insufficientData ↔
      ∀ Δ ∈ cands, ¬keepInterval traj cfg Δ := by
  unfold sampleFrom
  by_cases hk : cands.filter (keepInterval traj cfg) = []
  · rw [hk]
    exact iff_of_true (by simp) (by simpa using List.filter_eq_nil_iff.mp hk)
  · have hne : (cands.filter (keepInterval traj cfg)).isEmpty = false := by
      simpa [List.isEmpty_iff] using hk
    rw [hne]
    exact iff_of_false (by simp)
      (fun hall => hk (List.filter_eq_nil_iff.mpr (by simpa using hall)))

theorem sampleFrom_ok_mem_iff (traj : Trajectory) (cfg : SamplerConfig)
    (cands : List ℕ) (out : List IntervalSample)
    (h : sampleFrom traj cfg cands = .ok out) (Δ : ℕ) (hΔ : Δ ∈ cands) :
    (∃ s ∈ out, s.interval = Δ) ↔ keepInterval traj cfg Δ := by
  unfold sampleFrom at h
  by_cases hk : (cands.filter (keepInterval traj cfg)).isEmpty
  · rw [if_pos hk] at h
    cases h
  · rw [if_neg hk] at h
    have hout : out = (cands.filter (keepInterval traj cfg)).map
        (fun Δ2 => ⟨Δ2, dispObs traj Δ2⟩) := by
      cases h
      rfl
    subst hout
    constructor
    · rintro ⟨s, hs, rfl⟩
      obtain ⟨Δ2, hΔ2, rfl⟩ := List.mem_map.mp hs
      exact (List.mem_filter.mp hΔ2).2
    · intro hkeep
      exact ⟨⟨Δ, dispObs traj Δ⟩,
        List.mem_map_of_mem _ (List.mem_filter.mpr ⟨hΔ, hkeep⟩), rfl⟩

theorem det_toMatrix_eq_entry (b : CovarianceBundle) (hd : dim b = 1) :
    (toMatrix b).det = (b.cov.getD 0 []).getD 0 0 := by
  letI : Unique (Fin (dim b)) :=
    ⟨⟨⟨0, by omega⟩⟩, fun a => by
      apply Fin.ext
      have h2 := a.isLt
      show a.val = 0
      omega⟩
  rw [Matrix.det_unique]
  rfl

theorem getD_range_map {β : Type} (d j : ℕ) (f : ℕ → β) (dflt : β)
    (hj : j < d) : ((List.range d).map f).getD j dflt = f j := by
  rw [List.getD_eq_getElem _ _ (by simpa using hj)]
  simp only [List.getElem_map, List.getElem_range]

theorem covMatrixList_getD (rows : List (List ℚ)) (d j k : ℕ) (hj : j < d)
    (hk : k < d) :
    ((covMatrixList rows d).getD j []).getD k 0 = covEntry rows j k := by
  unfold covMatrixList
  rw [getD_range_map d j _ _ hj, getD_range_map d k _ _ hk]

theorem covEntry_comm (rows : List (List ℚ)) (j k : ℕ) :
    covEntry rows j k = covEntry rows k j := by
  unfold covEntry
  congr 1
  apply Finset.sum_congr rfl
  intro r _
  ring

theorem quadForm_covMatrixList_nonneg (rows : List (List ℚ)) (d : ℕ)
    (v : ℕ → ℚ) : 0 ≤ quadForm (covMatrixList rows d) d v := by
  have hq : quadForm (covMatrixList rows d) d v =
      (∑ r ∈ Finset.range rows.length,
        (∑ j ∈ Finset.range d,
          v j * ((rows.getD r []).getD j 0 - colMean rows j)) ^ 2) /
        rows.length := by
    unfold quadForm
    calc
      ∑ j ∈ Finset.range d, ∑ k ∈ Finset.range d,
          v j * ((covMatrixList rows d).getD j []).getD k 0 * v k
        = ∑ j ∈ Finset.range d, ∑ k ∈ Finset.range d,
            v j * covEntry rows j k * v k := by
          apply Finset.sum_congr rfl
          intro j hj
          apply Finset.sum_congr rfl
          intro k hk
          rw [covMatrixList_getD rows d j k (Finset.mem_range.mp hj)
            (Finset.mem_range.mp hk)]
      _ = ∑ j ∈ Finset.range d, ∑ k ∈ Finset.range d,
            (∑ r ∈ Finset.range rows.length,
              (v j * ((rows.getD r []).getD j 0 - colMean rows j)) *
                (v k * ((rows.getD r []).getD k 0 - colMean rows k))) /
              rows.length := by
          apply Finset.sum_congr rfl
          intro j _
          apply Finset.sum_congr rfl
          intro k _
          have h1 : ∑ r ∈ Finset.range rows.length,
              (v j * ((rows.getD r []).getD j 0 - colMean rows j)) *
                (v k * ((rows.getD r []).getD k 0 - colMean rows k)) =
              v j * v k * ∑ r ∈ Finset.range rows.length,
                ((rows.getD r []).getD j 0 - colMean rows j) *
                  ((rows.getD r []).getD k 0 - colMean rows k) := by
            rw [Finset.mul_sum]
            apply Finset.sum_congr rfl
            intro r _
            ring
          rw [h1]
          unfold covEntry
          ring
      _ = (∑ j ∈ Finset.range d, ∑ k ∈ Finset.range d,
            ∑ r ∈ Finset.range rows.length,
              (v j * ((rows.getD r []).getD j 0 - colMean rows j)) *
                (v k * ((rows.getD r []).getD k 0 - colMean rows k))) /
            rows.length := by
          simp only [Finset.sum_div]
      _ = (∑ r ∈ Finset.range rows.length,
            ∑ j ∈ Finset.range d, ∑ k ∈ Finset.range d,
              (v j * ((rows.getD r []).getD j 0 - colMean rows j)) *
                (v k * ((rows.getD r []).getD k 0 - colMean rows k))) /
            rows.length := by
          congr 1
          calc
            ∑ j ∈ Finset.range d, ∑ k ∈ Finset.range d,
                ∑ r ∈ Finset.range rows.length,
                  (v j * ((rows.getD r []).getD j 0 - colMean rows j)) *
                    (v k * ((rows.getD r []).getD k 0 - colMean rows k))
              = ∑ j ∈ Finset.range d, ∑ r ∈ Finset.range rows.length,
                  ∑ k ∈ Finset.range d,
                    (v j * ((rows.getD r []).getD j 0 - colMean rows j)) *
                      (v k * ((rows.getD r []).getD k 0 - colMean rows k)) := by
                apply Finset.sum_congr rfl
                intro j _
                exact Finset.sum_comm
            _ = ∑ r ∈ Finset.range rows.length, ∑ j ∈ Finset.range d,
                  ∑ k ∈ Finset.range d,
                    (v j * ((rows.getD r []).getD j 0 - colMean rows j)) *
                      (v k * ((rows.getD r []).getD k 0 - colMean rows k)) :=
                Finset.sum_comm
      _ = (∑ r ∈ Finset.range rows.length,
            (∑ j ∈ Finset.range d,
              v j * ((rows.getD r []).getD j 0 - colMean rows j)) ^ 2) /
            rows.length := by
          congr 1
          apply Finset.sum_congr rfl
          intro r _
          rw [sq, Finset.sum_mul_sum]
  rw [hq]
  apply div_nonneg
  · exact Finset.sum_nonneg fun r _ => sq_nonneg _
  · exact Nat.cast_nonneg _

/-! ## The claims -/

/-- C9: for every trajectory and every pair of intervals `i1 < i2`, the
number of valid time-origins computed for `i2` is no greater than for `i1`,
and origins are exactly the time indices `t` with `t + interval` within
trajectory bounds. -/
theorem origin_count_antitone (traj : Trajectory) (i1 i2 : ℕ) (h : i1 < i2) :
    (origins traj i2).length ≤ (origins traj i1).length ∧
    ∀ Δ t, t ∈ origins traj Δ ↔ t + Δ < nSteps traj := by
  constructor
  · exact (List.monotone_filter_right _ (fun t ht => by
      simp only [decide_eq_true_eq] at ht ⊢
      omega)).length_le
  · intro Δ t
    simp only [origins, List.mem_filter, List.mem_range, decide_eq_true_eq]
    omega

/-- Witness for C9 at the example trajectory and intervals 1 < 2. -/
theorem origin_count_antitone_wit :
    1 < 2 ∧
    ((origins exTraj 2).length ≤ (origins exTraj 1).length ∧
      ∀ Δ t, t ∈ origins exTraj Δ ↔ t + Δ < nSteps exTraj) :=
  ⟨by decide, origin_count_antitone exTraj 1 2 (by decide)⟩

/-- C5: `DisplacementSampler.sample` drops each interval yielding fewer than
the configured minimum number of origin/particle pairs while returning the
remaining intervals, and raises `InsufficientDataError` exactly when every
interval is dropped. -/
theorem sample_drops_and_fatal_iff_all (traj : Trajectory)
    (cfg : SamplerConfig) :
    (sample traj cfg = .error .insufficientData ↔
      ∀ Δ ∈ candidateIntervals cfg (nSteps traj),
        (dispObs traj Δ).length < cfg.minPairs) ∧
    ∀ out, sample traj cfg = .ok out →
      ∀ Δ ∈ candidateIntervals cfg (nSteps traj),
        ((∃ s ∈ out, s.interval = Δ) ↔
          cfg.minPairs ≤ (dispObs traj Δ).length) := by
  constructor
  · rw [sample, sampleFrom_error_iff]
    constructor
    · intro hall Δ hΔ
      have := hall Δ hΔ
      simpa [keepInterval, not_le] using this
    · intro hall Δ hΔ
      have := hall Δ hΔ
      simpa [keepInterval, not_le] using this
  · intro out hout Δ hΔ
    rw [← keepInterval_iff]
    exact sampleFrom_ok_mem_iff traj cfg _ out hout Δ hΔ

/-- Witness for C5 at the example trajectory and configuration. -/
theorem sample_drops_and_fatal_iff_all_wit :
    (sample exTraj exCfgS = .error .insufficientData ↔
      ∀ Δ ∈ candidateIntervals exCfgS (nSteps exTraj),
        (dispObs exTraj Δ).length < exCfgS.minPairs) ∧
    ∀ out, sample exTraj exCfgS = .ok out →
      ∀ Δ ∈ candidateIntervals exCfgS (nSteps exTraj),
        ((∃ s ∈ out, s.interval = Δ) ↔
          exCfgS.minPairs ≤ (dispObs exTraj Δ).length) :=
  sample_drops_and_fatal_iff_all exTraj exCfgS

/-- C8: dropping a candidate interval whose origin/particle pair count is
below the configured minimum leaves the sampler's output — in particular the
set of other retained intervals — unchanged. -/
theorem sample_erase_dropped_eq (traj : Trajectory) (cfg : SamplerConfig)
    (cands : List ℕ) (Δd : ℕ)
    (hd : (dispObs traj Δd).length < cfg.minPairs) :
    sampleFrom traj cfg (cands.erase Δd) = sampleFrom traj cfg cands := by
  have hp : keepInterval traj cfg Δd = false := by
    simp [keepInterval]
    omega
  unfold sampleFrom
  rw [filter_erase_of_not _ _ _ hp]

/-- Witness for C8: dropping the pair-starved interval 5 from the candidate
list `[1, 5]` of the example trajectory. -/
theorem sample_erase_dropped_eq_wit :
    (dispObs exTraj 5).length < exCfgS.minPairs ∧
    sampleFrom exTraj exCfgS ([1, 5].erase 5) = sampleFrom exTraj exCfgS [1, 5] :=
  ⟨by decide, sample_erase_dropped_eq exTraj exCfgS [1, 5] 5 (by decide)⟩

/-- C2: two calls of `CorrelatedRegressor.fit` with the same seed and the
same inputs return the same result — in particular bit-identical
`ParameterDistribution` sample arrays. -/
theorem fit_deterministic (b : CovarianceBundle) (model : ℚ → List ℚ → ℚ)
    (rlog : ℚ → ℚ) (cfg : FitConfig) (r1 r2 : Except KinisiError FitResult)
    (h1 : fit b model rlog cfg = r1) (h2 : fit b model rlog cfg = r2) :
    r1 = r2 ∧ fitSamples r1 = fitSamples r2 := by
  subst h1
  subst h2
  exact ⟨rfl, rfl⟩

/-- Witness for C2 at concrete inputs. -/
theorem fit_deterministic_wit :
    fit exB exModel exRlog exFitCfg = fit exB exModel exRlog exFitCfg ∧
    (fit exB exModel exRlog exFitCfg = fit exB exModel exRlog exFitCfg ∧
      fitSamples (fit exB exModel exRlog exFitCfg) =
        fitSamples (fit exB exModel exRlog exFitCfg)) :=
  ⟨rfl, fit_deterministic exB exModel exRlog exFitCfg _ _ rfl rfl⟩

/-- C3: two runs of `CovarianceEstimator.estimate` with the same inputs,
`n_resamples` and seed produce identical bundles: same intervals, same mean
vector, same covariance matrix. -/
theorem estimate_deterministic (samples : List IntervalSample) (n seed : ℕ)
    (b1 b2 : CovarianceBundle) (h1 : estimate samples n seed = b1)
    (h2 : estimate samples n seed = b2) :
    b1.intervals = b2.intervals ∧ b1.means = b2.means ∧ b1.cov = b2.cov := by
  subst h1
  subst h2
  exact ⟨rfl, rfl, rfl⟩

/-- Witness for C3 at concrete inputs. -/
theorem estimate_deterministic_wit :
    estimate exSamples 2 0 = estimate exSamples 2 0 ∧
    ((estimate exSamples 2 0).intervals = (estimate exSamples 2 0).intervals ∧
      (estimate exSamples 2 0).means = (estimate exSamples 2 0).means ∧
      (estimate exSamples 2 0).cov = (estimate exSamples 2 0).cov) :=
  ⟨rfl, estimate_deterministic exSamples 2 0 _ _ rfl rfl⟩

/-- C6: `CorrelatedRegressor.fit` reports `SingularCovarianceError` exactly
when the covariance matrix is not invertible — a non-invertible `Σ` is never
silently regularized into a successful fit. -/
theorem fit_singular_iff (b : CovarianceBundle) (model : ℚ → List ℚ → ℚ)
    (rlog : ℚ → ℚ) (cfg : FitConfig) :
    fit b model rlog cfg = .error .singularCovariance ↔
      ¬IsUnit (toMatrix b) := by
  rw [Matrix.isUnit_iff_isUnit_det, isUnit_iff_ne_zero, not_not]
  unfold fit
  by_cases h : (toMatrix b).det = 0
  · simp [h]
  · simp [h]

/-- Witness for C6 at the singular example bundle. -/
theorem fit_singular_iff_wit :
    fit exBSing exModel exRlog exFitCfg = .error .singularCovariance ↔
      ¬IsUnit (toMatrix exBSing) :=
  fit_singular_iff exBSing exModel exRlog exFitCfg

/-- C4: whenever `Σ` is invertible, the fit succeeds, its point estimate is
the parameter vector minimizing the generalized (Mahalanobis) residual over
the optimizer's search set, and the objective driving both the point
estimate and the chain walk is the negative log-likelihood
`0.5 * Mahalanobis + 0.5 * log(det Σ)`, whose minimization is equivalent to
minimizing the Mahalanobis residual. -/
theorem fit_point_minimizes_mahalanobis (b : CovarianceBundle)
    (model : ℚ → List ℚ → ℚ) (rlog : ℚ → ℚ) (cfg : FitConfig)
    (hdet : (toMatrix b).det ≠ 0) :
    ∃ res, fit b model rlog cfg = .ok res ∧
      res.params = fitPoint b model rlog cfg ∧
      (res.params = cfg.init ∨ res.params ∈ cfg.candidates) ∧
      (∀ θ, (θ = cfg.init ∨ θ ∈ cfg.candidates) →
        mahalanobisResidual b model res.params ≤
          mahalanobisResidual b model θ) ∧
      (∀ θ, fitTarget b model rlog θ =
        (1 / 2) * mahalanobisResidual b model θ +
          (1 / 2) * rlog (toMatrix b).det) ∧
      (∀ θ θ2, fitTarget b model rlog θ ≤ fitTarget b model rlog θ2 ↔
        mahalanobisResidual b model θ ≤ mahalanobisResidual b model θ2) := by
  have htgt : ∀ θ, fitTarget b model rlog θ =
      (1 / 2) * mahalanobisResidual b model θ +
        (1 / 2) * rlog (toMatrix b).det := fun θ => rfl
  have hiff : ∀ θ θ2,
      fitTarget b model rlog θ ≤ fitTarget b model rlog θ2 ↔
        mahalanobisResidual b model θ ≤ mahalanobisResidual b model θ2 := by
    intro θ θ2
    rw [htgt, htgt]
    constructor <;> intro h <;> linarith
  refine ⟨⟨fitPoint b model rlog cfg,
      paramDists (fitChain b model rlog cfg)
        (fitPoint b model rlog cfg).length⟩, ?_, rfl, ?_, ?_, htgt, hiff⟩
  · unfold fit
    rw [if_neg hdet]
  · exact argminBy_mem (fitTarget b model rlog) cfg.init cfg.candidates
  · intro θ hθ
    exact (hiff _ _).mp
      (argminBy_le (fitTarget b model rlog) cfg.init cfg.candidates θ hθ)

/-- Witness for C4 at the invertible example bundle. -/
theorem fit_point_minimizes_mahalanobis_wit :
    (toMatrix exB).det ≠ 0 ∧
    (∃ res, fit exB exModel exRlog exFitCfg = .ok res ∧
      res.params = fitPoint exB exModel exRlog exFitCfg ∧
      (res.params = exFitCfg.init ∨ res.params ∈ exFitCfg.candidates) ∧
      (∀ θ, (θ = exFitCfg.init ∨ θ ∈ exFitCfg.candidates) →
        mahalanobisResidual exB exModel res.params ≤
          mahalanobisResidual exB exModel θ) ∧
      (∀ θ, fitTarget exB exModel exRlog θ =
        (1 / 2) * mahalanobisResidual exB exModel θ +
          (1 / 2) * exRlog (toMatrix exB).det) ∧
      (∀ θ θ2, fitTarget exB exModel exRlog θ ≤ fitTarget exB exModel exRlog θ2 ↔
        mahalanobisResidual exB exModel θ ≤
          mahalanobisResidual exB exModel θ2)) := by
  have hdet : (toMatrix exB).det ≠ 0 := by
    rw [det_toMatrix_eq_entry exB rfl]
    show (3 : ℚ) ≠ 0
    norm_num
  exact ⟨hdet, fit_point_minimizes_mahalanobis exB exModel exRlog exFitCfg hdet⟩

/-- C1: for a non-degenerate sequence of interval samples, the covariance
matrix of the bundle returned by `CovarianceEstimator.estimate` is symmetric
and positive-semi-definite. -/
theorem estimate_cov_symm_psd (samples : List IntervalSample) (n seed : ℕ)
    (h : NonDegenerate samples) :
    (∀ j k, j < dim (estimate samples n seed) →
      k < dim (estimate samples n seed) →
      ((estimate samples n seed).cov.getD j []).getD k 0 =
        ((estimate samples n seed).cov.getD k []).getD j 0) ∧
    ∀ v : ℕ → ℚ,
      0 ≤ quadForm (estimate samples n seed).cov
        (dim (estimate samples n seed)) v := by
  have hdim : dim (estimate samples n seed) = samples.length := by
    simp [dim, estimate]
  have hcov : (estimate samples n seed).cov =
      covMatrixList (resampleRows samples n seed) samples.length := rfl
  constructor
  · intro j k hj hk
    rw [hdim] at hj hk
    rw [hcov, covMatrixList_getD _ _ _ _ hj hk,
      covMatrixList_getD _ _ _ _ hk hj, covEntry_comm]
  · intro v
    rw [hcov, hdim]
    exact quadForm_covMatrixList_nonneg _ _ v

/-- Witness for C1 at a concrete non-degenerate input. -/
theorem estimate_cov_symm_psd_wit :
    NonDegenerate exSamples ∧
    ((∀ j k, j < dim (estimate exSamples 2 0) →
      k < dim (estimate exSamples 2 0) →
      ((estimate exSamples 2 0).cov.getD j []).getD k 0 =
        ((estimate exSamples 2 0).cov.getD k []).getD j 0) ∧
    ∀ v : ℕ → ℚ,
      0 ≤ quadForm (estimate exSamples 2 0).cov
        (dim (estimate exSamples 2 0)) v) :=
  ⟨by decide, estimate_cov_symm_psd exSamples 2 0 (by decide)⟩

/-- C7 counterexample: a single surviving interval whose observations are
all equal gives a degenerate zero 1×1 covariance, and the fit then fails
with `SingularCovarianceError` (as §4.3 requires) rather than succeeding —
so the claim's unconditional "non-failing fit" is false. -/
theorem fit_single_interval_cex :
    fit (estimate [⟨1, [1, 1, 1]⟩] 2 0) exModel exRlog exFitCfg =
      .error .singularCovariance := by
  have hrows : resampleRows [⟨1, [1, 1, 1]⟩] 2 0 = [[1], [1]] := by
    rw [show resampleRows [⟨1, [1, 1, 1]⟩] 2 0 =
      [[listMean [1, 1, 1]], [listMean [1, 1, 1]]] from rfl]
    norm_num [listMean]
  have hvar : covEntry (resampleRows [⟨1, [1, 1, 1]⟩] 2 0) 0 0 = 0 := by
    rw [hrows]
    norm_num [covEntry, colMean, Finset.sum_range_succ, List.getD]
  have hcov : (estimate [⟨1, [1, 1, 1]⟩] 2 0).cov =
      [[covEntry (resampleRows [⟨1, [1, 1, 1]⟩] 2 0) 0 0]] := rfl
  have hdet : (toMatrix (estimate [⟨1, [1, 1, 1]⟩] 2 0)).det = 0 := by
    rw [det_toMatrix_eq_entry (estimate [⟨1, [1, 1, 1]⟩] 2 0) rfl, hcov]
    exact hvar
  unfold fit
  rw [if_pos hdet]

/-- C7 (amended): a single surviving interval still produces a valid 1×1
`CovarianceBundle` whose covariance degenerates to the scalar variance of
the resampled means, and — provided that variance is nonzero, so that the
1×1 `Σ` is invertible — `CorrelatedRegressor.fit` on that bundle succeeds,
through the same code path as the multi-dimensional case. -/
theorem fit_single_interval_ok (s : IntervalSample) (n seed : ℕ)
    (model : ℚ → List ℚ → ℚ) (rlog : ℚ → ℚ) (cfg : FitConfig)
    (hvar : covEntry (resampleRows [s] n seed) 0 0 ≠ 0) :
    dim (estimate [s] n seed) = 1 ∧
    (estimate [s] n seed).cov = [[covEntry (resampleRows [s] n seed) 0 0]] ∧
    ∃ res, fit (estimate [s] n seed) model rlog cfg = .ok res := by
  have hcov : (estimate [s] n seed).cov =
      [[covEntry (resampleRows [s] n seed) 0 0]] := rfl
  refine ⟨rfl, hcov, ?_⟩
  have hdet : (toMatrix (estimate [s] n seed)).det =
      covEntry (resampleRows [s] n seed) 0 0 := by
    rw [det_toMatrix_eq_entry (estimate [s] n seed) rfl, hcov]
    rfl
  refine ⟨⟨fitPoint (estimate [s] n seed) model rlog cfg,
    paramDists (fitChain (estimate [s] n seed) model rlog cfg)
      (fitPoint (estimate [s] n seed) model rlog cfg).length⟩, ?_⟩
  unfold fit
  rw [if_neg (by rw [hdet]; exact hvar)]

/-- Witness for the amended C7 at a concrete single-interval input with
nonzero resampled variance. -/
theorem fit_single_interval_ok_wit :
    covEntry (resampleRows [⟨1, [0, 6, 12]⟩] 2 0) 0 0 ≠ 0 ∧
    (dim (estimate [⟨1, [0, 6, 12]⟩] 2 0) = 1 ∧
      (estimate [⟨1, [0, 6, 12]⟩] 2 0).cov =
        [[covEntry (resampleRows [⟨1, [0, 6, 12]⟩] 2 0) 0 0]] ∧
      ∃ res, fit (estimate [⟨1, [0, 6, 12]⟩] 2 0) exModel exRlog exFitCfg =
        .ok res) := by
  have hrows : resampleRows [⟨1, [0, 6, 12]⟩] 2 0 = [[4], [12]] := by
    rw [show resampleRows [⟨1, [0, 6, 12]⟩] 2 0 =
      [[listMean [6, 6, 0]], [listMean [12, 12, 12]]] from rfl]
    norm_num [listMean]
  have hvar : covEntry (resampleRows [⟨1, [0, 6, 12]⟩] 2 0) 0 0 ≠ 0 := by
    rw [hrows]
    norm_num [covEntry, colMean, Finset.sum_range_succ, List.getD]
  exact ⟨hvar, fit_single_interval_ok ⟨1, [0, 6, 12]⟩ 2 0 exModel exRlog
    exFitCfg hvar⟩

/-- C10: after `StandardArrhenius.mcmc()`, the activation-energy and
preexponential-factor distributions expose sample arrays of equal size, and
for every index below that size `get_sample(i)` is the index-aligned joint
draw — the pair of the `i`-th activation-energy sample and the `i`-th
prefactor sample, i.e. the `i`-th element of the joint chain — at which the
fitted model function evaluates exactly as at that joint draw. -/
theorem arrhenius_joint_samples_aligned (s : StandardArrhenius)
    (rexp : ℚ → ℚ) (cfg : ArrheniusConfig) :
    (activationEnergy (arrheniusMcmc s rexp cfg)).size =
      (preexponentialFactor (arrheniusMcmc s rexp cfg)).size ∧
    ∀ i, i < (activationEnergy (arrheniusMcmc s rexp cfg)).size →
      getSample (arrheniusMcmc s rexp cfg) i =
        (arrheniusMcmc s rexp cfg).chain.getD i (0, 0) ∧
      ∀ T, arrheniusFunc rexp T (getSample (arrheniusMcmc s rexp cfg) i).1
          (getSample (arrheniusMcmc s rexp cfg) i).2 =
        arrheniusFunc rexp T
          ((arrheniusMcmc s rexp cfg).chain.getD i (0, 0)).1
          ((arrheniusMcmc s rexp cfg).chain.getD i (0, 0)).2 := by
  constructor
  · simp [activationEnergy, preexponentialFactor, Distribution.size]
  · intro i hi
    have hlen : i < (arrheniusMcmc s rexp cfg).chain.length := by
      simpa [activationEnergy, Distribution.size] using hi
    have h2 : getSample (arrheniusMcmc s rexp cfg) i =
        (arrheniusMcmc s rexp cfg).chain.getD i (0, 0) := by
      show ((arrheniusMcmc s rexp cfg).chain.map Prod.fst |>.getD i 0,
        (arrheniusMcmc s rexp cfg).chain.map Prod.snd |>.getD i 0) =
          (arrheniusMcmc s rexp cfg).chain.getD i (0, 0)
      rw [getD_map_of_lt _ _ _ (0, 0) _ hlen, getD_map_of_lt _ _ _ (0, 0) _ hlen]
    exact ⟨h2, fun T => by rw [h2]⟩

/-- Witness for C10 at concrete Arrhenius inputs. -/
theorem arrhenius_joint_samples_aligned_wit :
    (activationEnergy (arrheniusMcmc exArr exRexp exArrCfg)).size =
      (preexponentialFactor (arrheniusMcmc exArr exRexp exArrCfg)).size ∧
    ∀ i, i < (activationEnergy (arrheniusMcmc exArr exRexp exArrCfg)).size →
      getSample (arrheniusMcmc exArr exRexp exArrCfg) i =
        (arrheniusMcmc exArr exRexp exArrCfg).chain.getD i (0, 0) ∧
      ∀ T, arrheniusFunc exRexp T
          (getSample (arrheniusMcmc exArr exRexp exArrCfg) i).1
          (getSample (arrheniusMcmc exArr exRexp exArrCfg) i).2 =
        arrheniusFunc exRexp T
          ((arrheniusMcmc exArr exRexp exArrCfg).chain.getD i (0, 0)).1
          ((arrheniusMcmc exArr exRexp exArrCfg).chain.getD i (0, 0)).2 :=
  arrhenius_joint_samples_aligned exArr exRexp exArrCfg

end Kinisi
